import Mathlib

/-
  Shallow embedding of the SharePoint upload client of the ops-kit
  repository: src/opskit/sharepoint/client.py (SharePointClient and the
  module level helpers) and src/opskit/sharepoint/cli.py (the upload
  command).

  Modelling conventions:
  * Python integers are unbounded, so sizes, offsets and HTTP status codes
    are Nat.
  * The retry backoff base (a Python float, default 2.0) is modelled as a
    rational number; the statements under study only use the recorded
    sleep durations symbolically, as powers of that base.
  * Network responses are supplied by oracles (functions from request
    number or path to a status plus body); the embedded functions record
    the remote calls they perform as explicit operation lists.
  * A function that can raise a RuntimeError is embedded with an Except
    or Option shaped result.
  * The while loop of the chunked upload is embedded with an explicit
    fuel argument; fuel at least file_size minus bytes_sent makes the
    embedding equal to the loop, because every iteration either breaks or
    advances bytes_sent by at least one byte.
-/

namespace OpsKit

/-! ## String helpers

Python string operations used by the client, embedded over the character
list of the string so that everything reduces in the kernel:
strip of the slash character, split on the slash character, endswith of
a colon, and split on the first colon slash marker. -/

/-- Python s.strip of the slash character: remove leading and trailing
slash characters. -/
def stripSlashes (s : String) : String :=
  String.mk (((s.data.dropWhile (fun c => c == '/')).reverse.dropWhile
      (fun c => c == '/')).reverse)

/-- Python s.split on one separator character: at every occurrence of the
separator the list is cut, and empty pieces are kept.  Mirrors the
semantics of str.split with an explicit separator. -/
def splitChar (sep : Char) : List Char → List (List Char)
  | [] => [[]]
  | x :: xs =>
    let r := splitChar sep xs
    if x == sep then [] :: r
    else
      match r with
      | [] => [[x]]
      | y :: ys => (x :: y) :: ys

/-- Python folder_path.split of the slash character, as a list of
strings. -/
def splitSlashes (s : String) : List String :=
  (splitChar '/' s.data).map String.mk

/-- Python s.endswith of a colon: the last character is a colon.  The
empty string gives false, exactly as in Python. -/
def endsWithColon (s : String) : Bool :=
  s.data.getLast? == some ':'

/-- The part of the character list after the first colon slash marker, if
the marker occurs.  Mirrors the Python test of the marker being in the
string together with s.split on the marker with count one, index one. -/
def afterColonSlashAux : List Char → Option (List Char)
  | [] => none
  | ':' :: '/' :: rest => some rest
  | _ :: xs => afterColonSlashAux xs

/-- Python s.split on the colon slash marker, count one, index one; none
when the marker does not occur in the string. -/
def afterColonSlash (s : String) : Option String :=
  (afterColonSlashAux s.data).map String.mk

/-! ## Retrying transport

client.py lines 154 to 167, the function request with retry.  The loop
runs attempt = 1 .. rm; a response whose status is in the transient set
causes a sleep of rb to the power attempt followed by the next attempt;
any other response is returned at once; after the last iteration the last
response is returned as is (line 167). -/

/-- The transient status tuple on line 160 of client.py. -/
def transientStatuses : List Nat := [429, 500, 502, 503, 504]

/-- Observable outcome of one call of the retrying transport: how many
HTTP requests were issued, the sleep durations in order, and the status
of the response that was returned. -/
structure TransportResult where
  requests : Nat
  sleeps : List ℚ
  status : Nat
  deriving Repr, DecidableEq

/-- The retry loop of client.py lines 158 to 167.  The oracle resp gives
the status of the request issued at a given attempt number (starting at
1); the second Nat argument is the number of loop iterations that are
still allowed.  Note that on a transient status the code sleeps before
checking whether attempts remain, so the sleep also happens on the very
last iteration. -/
def retryLoop (resp : Nat → Nat) (rb : ℚ) : Nat → Nat → TransportResult
  | _, 0 => ⟨0, [], 0⟩
  | attempt, n + 1 =>
    if resp attempt ∈ transientStatuses then
      if n = 0 then ⟨1, [rb ^ attempt], resp attempt⟩
      else
        ⟨(retryLoop resp rb (attempt + 1) n).requests + 1,
         rb ^ attempt :: (retryLoop resp rb (attempt + 1) n).sleeps,
         (retryLoop resp rb (attempt + 1) n).status⟩
    else ⟨1, [], resp attempt⟩

/-- client.py lines 154 to 167: run the retry loop starting at attempt 1
with rm iterations allowed.  (For rm = 0 the Python loop body never runs
and the final return would hit an unbound name; the claims only concern
rm at least 1.) -/
def request_with_retry (resp : Nat → Nat) (rm : Nat) (rb : ℚ) : TransportResult :=
  retryLoop resp rb 1 rm

/-- When every allowed attempt yields a transient status, the loop issues
all of its allowed requests, sleeps rb to the power of each attempt
number (including the last one), and ends on the response of the final
attempt. -/
theorem retryLoop_allTransient (resp : Nat → Nat) (rb : ℚ) :
    ∀ (n a : Nat), 1 ≤ n →
      (∀ i, a ≤ i → i < a + n → resp i ∈ transientStatuses) →
      retryLoop resp rb a n =
        ⟨n, (List.range n).map (fun k => rb ^ (a + k)), resp (a + n - 1)⟩ := by
  intro n
  induction n with
  | zero => intro a h1 _; omega
  | succ m ih =>
    intro a _ hall
    have hmem : resp a ∈ transientStatuses := hall a (le_refl a) (by omega)
    by_cases hm : m = 0
    · subst hm
      simp [retryLoop, hmem, List.range_succ]
    · have ihm := ih (a + 1) (by omega)
        (fun i hi1 hi2 => hall i (by omega) (by omega))
      have hidx : a + 1 + m - 1 = a + m := by omega
      have hrange : (List.range (m + 1)).map (fun k => rb ^ (a + k)) =
          rb ^ a :: (List.range m).map (fun k => rb ^ (a + 1 + k)) := by
        rw [List.range_succ_eq_map]
        simp only [List.map_cons, List.map_map, Nat.add_zero]
        congr 1
        apply List.map_congr_left
        intro k _
        simp only [Function.comp_apply]
        congr 1
        omega
      simp [retryLoop, hmem, hm, ihm, hidx, hrange]

/-- C3: for a response sequence whose statuses are 503, 503, 200 and
retry max 5, the transport issues exactly 3 requests, sleeps rb to the
power 1 after the first response and rb to the power 2 after the second,
performs no other sleep, and returns the 200 response. -/
theorem claim_C3 (resp : Nat → Nat) (rb : ℚ)
    (h1 : resp 1 = 503) (h2 : resp 2 = 503) (h3 : resp 3 = 200) :
    request_with_retry resp 5 rb = ⟨3, [rb ^ 1, rb ^ 2], 200⟩ := by
  simp [request_with_retry, retryLoop, transientStatuses, h1, h2, h3]

/-- Witness for C3 at the concrete response sequence 503, 503, 200 with
backoff base 2. -/
theorem claim_C3_witness :
    request_with_retry (fun i => if i = 3 then 200 else 503) 5 2 =
      ⟨3, [(2 : ℚ) ^ 1, 2 ^ 2], 200⟩ :=
  claim_C3 (fun i => if i = 3 then 200 else 503) 2 rfl rfl rfl

/-- C7 counterexample: with retry max 1 and a response sequence that is
always 503, the code records one sleep (of backoff to the power 1) even
though no attempts remain after that response, so it does not return
immediately after the final attempt as the claim states; the claimed
number of sleeps would be 1 - 1 = 0. -/
theorem claim_C7_counterexample :
    (request_with_retry (fun _ => 503) 1 2).sleeps.length = 1 ∧
      (1 : Nat) ≠ 1 - 1 := by
  constructor
  · rfl
  · decide

/-- C7 (amended): when all retry max responses are transient, the
transport issues exactly retry max requests and returns the final
transient response as is, without raising; however it sleeps rb to the
power of the attempt number after every transient response, including
the final one, so retry max sleeps happen in total. -/
theorem claim_C7 (resp : Nat → Nat) (rm : Nat) (rb : ℚ) (hrm : 1 ≤ rm)
    (hall : ∀ i, 1 ≤ i → i ≤ rm → resp i ∈ transientStatuses) :
    request_with_retry resp rm rb =
      ⟨rm, (List.range rm).map (fun k => rb ^ (1 + k)), resp rm⟩ := by
  have h := retryLoop_allTransient resp rb rm 1 hrm
    (fun i hi1 hi2 => hall i hi1 (by omega))
  have hidx : 1 + rm - 1 = rm := by omega
  rw [request_with_retry, h, hidx]

/-- Witness for C7 at retry max 2, constant 503 responses, backoff base
2: both attempts are issued, both sleeps happen, the final 503 is
returned. -/
theorem claim_C7_witness :
    request_with_retry (fun _ => 503) 2 2 =
      ⟨2, (List.range 2).map (fun k => (2 : ℚ) ^ (1 + k)), 503⟩ :=
  claim_C7 (fun _ => 503) 2 2 (by decide)
    (fun i _ _ => by simp [transientStatuses])

/-! ## Chunked upload

client.py lines 297 to 342, the chunked upload method.  The local file
is modelled by the number of bytes it actually yields when read front to
back (avail); a read of chunk_size bytes at position bytesSent returns
min chunk_size (avail - bytesSent) bytes.  The chunk PUT responses come
from an oracle giving the final status (after the transport retries) of
the PUT for each chunk index.  The loop records the byte range of every
chunk PUT it sends; a status outside 200, 201, 202 raises, which is
modelled by the some branch of the second component. -/

/-- One Content-Range byte range, bytes start-stop/total. -/
structure Chunk where
  start : Nat
  stop : Nat
  deriving Repr, DecidableEq

/-- The allowed chunk PUT statuses on line 330 of client.py. -/
def chunkOk (s : Nat) : Bool := s == 200 || s == 201 || s == 202

/-- The RuntimeError raised on line 331 of client.py, with the chunk
index, the byte range and the offending status. -/
inductive ChunkErr where
  | badStatus (chunkIndex : Nat) (start : Nat) (stop : Nat) (status : Nat)
  deriving Repr, DecidableEq

/-- Number of bytes of one chunk range. -/
def chunkLen (c : Chunk) : Nat := c.stop - c.start + 1

/-- Total number of bytes covered by a list of chunk ranges. -/
def sumLen (cs : List Chunk) : Nat := (cs.map chunkLen).sum

/-- The while loop of the chunked upload, client.py lines 312 to 336,
with an explicit fuel argument (first Nat): while bytesSent < fileSize,
read min chunkSize (avail - bytesSent) bytes; an empty read breaks the
loop; otherwise send the chunk PUT for bytes bytesSent to
bytesSent + read - 1, raise unless the status is 200, 201 or 202, and
advance.  Fuel at least fileSize - bytesSent makes this equal to the
Python loop, since every iteration either returns or advances bytesSent
by at least one. -/
def chunkedLoop (put : Nat → Nat) (avail fileSize chunkSize : Nat) :
    Nat → Nat → Nat → List Chunk × Option ChunkErr
  | 0, _, _ => ([], none)
  | fuel + 1, bytesSent, idx =>
    if bytesSent < fileSize then
      if min chunkSize (avail - bytesSent) = 0 then ([], none)
      else
        if chunkOk (put idx) then
          ((⟨bytesSent, bytesSent + min chunkSize (avail - bytesSent) - 1⟩ : Chunk) ::
              (chunkedLoop put avail fileSize chunkSize fuel
                (bytesSent + min chunkSize (avail - bytesSent)) (idx + 1)).1,
            (chunkedLoop put avail fileSize chunkSize fuel
                (bytesSent + min chunkSize (avail - bytesSent)) (idx + 1)).2)
        else
          ([⟨bytesSent, bytesSent + min chunkSize (avail - bytesSent) - 1⟩],
            some (ChunkErr.badStatus idx bytesSent
              (bytesSent + min chunkSize (avail - bytesSent) - 1) (put idx)))
    else ([], none)

/-- client.py lines 297 to 342: run the loop from bytesSent = 0, chunk
index 0, with enough fuel. -/
def chunked_upload (put : Nat → Nat) (avail fileSize chunkSize : Nat) :
    List Chunk × Option ChunkErr :=
  chunkedLoop put avail fileSize chunkSize fileSize 0 0

/-- A list of ranges is a contiguous chain from b: the first range starts
at b, every range is nonempty, and each next range starts right after
the previous one ends. -/
def goodChain : Nat → List Chunk → Prop
  | _, [] => True
  | b, c :: cs => c.start = b ∧ b ≤ c.stop ∧ goodChain (c.stop + 1) cs

/-- One past the last byte of a chain that starts at b. -/
def chainEnd : Nat → List Chunk → Nat
  | b, [] => b
  | _, c :: cs => chainEnd (c.stop + 1) cs

theorem chainEnd_ge (cs : List Chunk) : ∀ b, goodChain b cs → b ≤ chainEnd b cs := by
  induction cs with
  | nil => intro b _; simp [chainEnd]
  | cons c cs ih =>
    intro b h
    obtain ⟨h1, h2, h3⟩ := h
    have := ih (c.stop + 1) h3
    simp only [chainEnd]
    omega

theorem chainEnd_eq_add_sumLen (cs : List Chunk) :
    ∀ b, goodChain b cs → chainEnd b cs = b + sumLen cs := by
  induction cs with
  | nil => intro b _; simp [chainEnd, sumLen]
  | cons c cs ih =>
    intro b h
    obtain ⟨h1, h2, h3⟩ := h
    have := ih (c.stop + 1) h3
    simp only [chainEnd, sumLen, List.map_cons, List.sum_cons, chunkLen] at *
    omega

theorem goodChain_get_start (cs : List Chunk) :
    ∀ b, goodChain b cs → ∀ i (hi : i < cs.length),
      (cs.get ⟨i, hi⟩).start = b + sumLen (cs.take i) := by
  induction cs with
  | nil => intro b _ i hi; simp at hi
  | cons c cs ih =>
    intro b h i hi
    obtain ⟨h1, h2, h3⟩ := h
    cases i with
    | zero => simp [sumLen, h1]
    | succ j =>
      have hj : j < cs.length := by simpa using hi
      have := ih (c.stop + 1) h3 j hj
      simp only [List.get_cons_succ, List.take_succ_cons, sumLen, List.map_cons,
        List.sum_cons, chunkLen] at *
      omega

theorem goodChain_get_stop (cs : List Chunk) :
    ∀ b, goodChain b cs → ∀ i (hi : i < cs.length),
      (cs.get ⟨i, hi⟩).stop + 1 = b + sumLen (cs.take (i + 1)) := by
  induction cs with
  | nil => intro b _ i hi; simp at hi
  | cons c cs ih =>
    intro b h i hi
    obtain ⟨h1, h2, h3⟩ := h
    cases i with
    | zero => simp [sumLen, chunkLen]; omega
    | succ j =>
      have hj : j < cs.length := by simpa using hi
      have := ih (c.stop + 1) h3 j hj
      simp only [List.get_cons_succ, List.take_succ_cons, sumLen, List.map_cons,
        List.sum_cons, chunkLen] at *
      omega

theorem sum_take_mono (l : List Nat) : ∀ i j, i ≤ j → (l.take i).sum ≤ (l.take j).sum := by
  induction l with
  | nil => intro i j _; simp
  | cons x xs ih =>
    intro i j hij
    cases i with
    | zero => simp
    | succ i =>
      cases j with
      | zero => omega
      | succ j =>
        simp only [List.take_succ_cons, List.sum_cons]
        have := ih i j (by omega)
        omega

theorem sumLen_take_mono (cs : List Chunk) (i j : Nat) (h : i ≤ j) :
    sumLen (cs.take i) ≤ sumLen (cs.take j) := by
  have h1 : ∀ k, sumLen (cs.take k) = ((cs.map chunkLen).take k).sum := by
    intro k
    simp [sumLen, List.map_take]
  rw [h1 i, h1 j]
  exact sum_take_mono (cs.map chunkLen) i j h

theorem goodChain_cover (cs : List Chunk) :
    ∀ b, goodChain b cs → ∀ k, b ≤ k → k < chainEnd b cs →
      ∃ c ∈ cs, c.start ≤ k ∧ k ≤ c.stop := by
  induction cs with
  | nil =>
    intro b _ k hk1 hk2
    simp only [chainEnd] at hk2
    omega
  | cons c cs ih =>
    intro b h k hk1 hk2
    obtain ⟨h1, h2, h3⟩ := h
    by_cases hks : k ≤ c.stop
    · exact ⟨c, List.mem_cons_self c cs, by omega, hks⟩
    · simp only [chainEnd] at hk2
      obtain ⟨c', hm, hs1, hs2⟩ := ih (c.stop + 1) h3 k (by omega) hk2
      exact ⟨c', List.mem_cons_of_mem c hm, hs1, hs2⟩

theorem goodChain_getLast (cs : List Chunk) :
    ∀ b, goodChain b cs → cs ≠ [] →
      ∃ c, cs.getLast? = some c ∧ c.stop + 1 = chainEnd b cs := by
  induction cs with
  | nil => intro b _ hne; exact absurd rfl hne
  | cons c cs ih =>
    intro b h _
    obtain ⟨h1, h2, h3⟩ := h
    cases cs with
    | nil => exact ⟨c, rfl, by simp [chainEnd]⟩
    | cons c' cs' =>
      obtain ⟨cl, hcl1, hcl2⟩ := ih (c.stop + 1) h3 (by simp)
      exact ⟨cl, by simpa using hcl1, by simpa [chainEnd] using hcl2⟩

theorem goodChain_stop_lt (cs : List Chunk) :
    ∀ b, goodChain b cs → ∀ c ∈ cs, c.stop < chainEnd b cs := by
  induction cs with
  | nil => intro b _ c hc; simp at hc
  | cons c cs ih =>
    intro b h x hx
    obtain ⟨h1, h2, h3⟩ := h
    simp only [chainEnd]
    rcases List.mem_cons.mp hx with rfl | hx'
    · have := chainEnd_ge cs (x.stop + 1) h3
      omega
    · exact ih (c.stop + 1) h3 x hx'

/-- Arithmetic of the chunk count: taking one read of min C d bytes off
d remaining bytes lowers the ceiling count by exactly one. -/
theorem ceil_step (d C : Nat) (hC : 0 < C) (hd : 1 ≤ d) :
    (d + C - 1) / C = 1 + (d - min C d + C - 1) / C := by
  rcases le_or_lt C d with h | h
  · have h1 : min C d = C := by omega
    have h2 : d - C + C - 1 = d - 1 := by omega
    have h3 : d + C - 1 = (d - 1) + C := by omega
    rw [h1, h2, h3, Nat.add_div_right _ hC]
    omega
  · have h1 : min C d = d := by omega
    have h2 : d - d + C - 1 = C - 1 := by omega
    have h3 : d + C - 1 = (d - 1) + C := by omega
    rw [h1, h2, h3, Nat.add_div_right _ hC]
    have h4 : (d - 1) / C = 0 := Nat.div_eq_of_lt (by omega)
    have h5 : (C - 1) / C = 0 := Nat.div_eq_of_lt (by omega)
    omega

/-- Main loop invariant of the chunked upload: with a positive chunk
size, a file that yields avail of the declared fileSize bytes
(avail at most fileSize), successful PUT statuses, and enough fuel, the
loop from position b returns normally with a contiguous chain of ranges
from b up to avail, of exactly the ceiling of (avail - b) / C many
chunks. -/
theorem chunkedLoop_ok (put : Nat → Nat) (hput : ∀ i, chunkOk (put i) = true)
    (avail S C : Nat) (hC : 0 < C) (hA : avail ≤ S) :
    ∀ (fuel b idx : Nat), b ≤ avail → S - b ≤ fuel →
      ∃ cs, chunkedLoop put avail S C fuel b idx = (cs, none) ∧
        goodChain b cs ∧ chainEnd b cs = avail ∧
        cs.length = (avail - b + C - 1) / C := by
  intro fuel
  induction fuel with
  | zero =>
    intro b idx hb hf
    have hba : b = avail := by omega
    refine ⟨[], rfl, trivial, by simp [chainEnd, hba], ?_⟩
    have h0 : avail - b = 0 := by omega
    rw [h0]
    simp [Nat.div_eq_of_lt (show C - 1 < C by omega)]
  | succ fuel ih =>
    intro b idx hb hf
    by_cases hlt : b < S
    · by_cases hba : b = avail
      · -- empty read, break on line 315
        have hn : min C (avail - b) = 0 := by omega
        refine ⟨[], by simp [chunkedLoop, hlt, hn], trivial, by simp [chainEnd, hba], ?_⟩
        have h0 : avail - b = 0 := by omega
        rw [h0]
        simp [Nat.div_eq_of_lt (show C - 1 < C by omega)]
      · have hbav : b < avail := by omega
        have hn : ¬ min C (avail - b) = 0 := by omega
        obtain ⟨cs', heq', hchain', hend', hlen'⟩ :=
          ih (b + min C (avail - b)) (idx + 1) (by omega) (by omega)
        have hrw : b + min C (avail - b) - 1 + 1 = b + min C (avail - b) := by omega
        refine ⟨⟨b, b + min C (avail - b) - 1⟩ :: cs', ?_, ?_, ?_, ?_⟩
        · simp [chunkedLoop, hlt, hn, hput idx, heq']
        · refine ⟨rfl, ?_, ?_⟩
          · show b ≤ b + min C (avail - b) - 1
            omega
          · show goodChain (b + min C (avail - b) - 1 + 1) cs'
            rw [hrw]
            exact hchain'
        · show chainEnd (b + min C (avail - b) - 1 + 1) cs' = avail
          rw [hrw]
          exact hend'
        · simp only [List.length_cons, hlen']
          have hstep := ceil_step (avail - b) C hC (by omega)
          have harg : avail - b - min C (avail - b) = avail - (b + min C (avail - b)) := by
            omega
          rw [harg] at hstep
          omega
    · have hba : b = avail := by omega
      refine ⟨[], by simp [chunkedLoop, hlt], trivial, by simp [chainEnd, hba], ?_⟩
      have h0 : avail - b = 0 := by omega
      rw [h0]
      simp [Nat.div_eq_of_lt (show C - 1 < C by omega)]

/-- C1: a chunked upload of a file of S readable bytes declared as size S
with chunk size C (both positive) and successful PUT statuses sends
exactly the ceiling of S / C chunk PUTs; their byte ranges start at 0,
each start equals the cumulative bytes sent so far, consecutive ranges
are contiguous, distinct ranges are disjoint, every byte of 0 to S - 1
is covered, and the last range ends at S - 1. -/
theorem claim_C1 (put : Nat → Nat) (S C : Nat) (hS : 0 < S) (hC : 0 < C)
    (hput : ∀ i, chunkOk (put i) = true) :
    ∃ cs, chunked_upload put S S C = (cs, none) ∧
      cs.length = (S + C - 1) / C ∧
      (∀ i (hi : i < cs.length), (cs.get ⟨i, hi⟩).start = sumLen (cs.take i)) ∧
      (∀ i (hi : i + 1 < cs.length),
        (cs.get ⟨i + 1, hi⟩).start = (cs.get ⟨i, Nat.lt_of_succ_lt hi⟩).stop + 1) ∧
      (∀ i j (hi : i < cs.length) (hj : j < cs.length), i < j →
        (cs.get ⟨i, hi⟩).stop < (cs.get ⟨j, hj⟩).start) ∧
      (∀ k, k < S → ∃ c ∈ cs, c.start ≤ k ∧ k ≤ c.stop) ∧
      (∃ c, cs.getLast? = some c ∧ c.stop = S - 1) := by
  obtain ⟨cs, heq, hchain, hend, hlen⟩ :=
    chunkedLoop_ok put hput S S C hC (le_refl S) S 0 0 (Nat.zero_le S) (by omega)
  refine ⟨cs, heq, by simpa using hlen, ?_, ?_, ?_, ?_, ?_⟩
  · intro i hi
    simpa using goodChain_get_start cs 0 hchain i hi
  · intro i hi
    have h1 := goodChain_get_start cs 0 hchain (i + 1) hi
    have h2 := goodChain_get_stop cs 0 hchain i (Nat.lt_of_succ_lt hi)
    omega
  · intro i j hi hj hij
    have h1 := goodChain_get_stop cs 0 hchain i hi
    have h2 := goodChain_get_start cs 0 hchain j hj
    have h3 := sumLen_take_mono cs (i + 1) j hij
    omega
  · intro k hk
    exact goodChain_cover cs 0 hchain k (Nat.zero_le k) (by omega)
  · have hne : cs ≠ [] := by
      intro h
      subst h
      simp [chainEnd] at hend
      omega
    obtain ⟨c, hc1, hc2⟩ := goodChain_getLast cs 0 hchain hne
    exact ⟨c, hc1, by omega⟩

/-- Witness for C1 at S = 5, C = 2, all PUT statuses 200: the ranges are
0-1, 2-3, 4-4, which is the ceiling of 5 / 2 = 3 chunks. -/
theorem claim_C1_witness :
    chunked_upload (fun _ => 200) 5 5 2 = ([⟨0, 1⟩, ⟨2, 3⟩, ⟨4, 4⟩], none) ∧
      ([⟨0, 1⟩, ⟨2, 3⟩, ⟨4, 4⟩] : List Chunk).length = (5 + 2 - 1) / 2 := by
  obtain ⟨cs, heq, hlen, _⟩ :=
    claim_C1 (fun _ => 200) 5 2 (by decide) (by decide) (fun i => rfl)
  exact ⟨rfl, by decide⟩

/-- C10: when the file yields fewer bytes (avail) than the declared
file size S, the loop hits an empty read with bytesSent = avail < S,
breaks, and returns normally with no error; only bytes 0 to avail - 1
were sent, so the ranges from avail through S - 1 remain unsent. -/
theorem claim_C10 (put : Nat → Nat) (avail S C : Nat) (hC : 0 < C) (hA : avail < S)
    (hput : ∀ i, chunkOk (put i) = true) :
    ∃ cs, chunked_upload put avail S C = (cs, none) ∧
      sumLen cs = avail ∧ (∀ c ∈ cs, c.stop < avail) := by
  obtain ⟨cs, heq, hchain, hend, hlen⟩ :=
    chunkedLoop_ok put hput avail S C hC (by omega) S 0 0 (Nat.zero_le avail) (by omega)
  have hsum := chainEnd_eq_add_sumLen cs 0 hchain
  refine ⟨cs, heq, by omega, ?_⟩
  intro c hc
  have := goodChain_stop_lt cs 0 hchain c hc
  omega

/-- Witness for C10 at avail = 3, declared size 5, chunk size 2: normal
return after sending ranges 0-1 and 2-2 only. -/
theorem claim_C10_witness :
    chunked_upload (fun _ => 200) 3 5 2 = ([⟨0, 1⟩, ⟨2, 2⟩], none) ∧ (3 : Nat) < 5 := by
  obtain ⟨cs, heq, hsum, _⟩ :=
    claim_C10 (fun _ => 200) 3 5 2 (by decide) (by decide) (fun i => rfl)
  exact ⟨rfl, by decide⟩

/-! ## Drive items and server relative paths

client.py lines 82 to 99, the method get server relative path.  A drive
item is embedded with the three fields the function reads: id, name and
the parent reference.  The Python code reads
item_json.get("parentReference", {}) and then .get("path"), so an absent
parent reference and an absent path both give path none; the field
parentReference is none exactly when the Python dict is absent or empty
(falsy), which is also the truthiness test used by ensure_folder_path. -/

structure ParentRef where
  path : Option String
  deriving Repr, DecidableEq

structure DriveItem where
  id : String
  name : String
  parentReference : Option ParentRef
  deriving Repr, DecidableEq

/-- parent.get("path") after item_json.get("parentReference", {}). -/
def parentPathOf (item : DriveItem) : Option String :=
  match item.parentReference with
  | none => none
  | some p => p.path

/-- client.py lines 82 to 99: reconstruct the library relative path of a
drive item from the path field of its parent reference and its own name.
The branch conditions mirror the Python truthiness tests: a missing or
empty parent path gives an empty base, a parent path ending in a colon
gives an empty base, otherwise the part after the first colon slash
marker is the base (empty again if the marker is absent). -/
def get_server_relative_path (item : DriveItem) : String :=
  let base : String :=
    match parentPathOf item with
    | none => ""
    | some pp =>
      if pp = "" then ""
      else if endsWithColon pp then ""
      else
        match afterColonSlash pp with
        | some rest => rest
        | none => ""
  if base ≠ "" then
    if item.name ≠ "" then stripSlashes (base ++ "/" ++ item.name)
    else stripSlashes base
  else stripSlashes item.name

theorem stripSlashes_slash_append (s : String) :
    stripSlashes ("/" ++ s) = stripSlashes s := by
  have h : ("/" ++ s).data = '/' :: s.data := rfl
  simp [stripSlashes, h, List.dropWhile_cons]

theorem string_append_empty (s : String) : s ++ "" = s := by
  cases s with
  | mk l =>
    show String.mk (l ++ []) = String.mk l
    rw [List.append_nil]

theorem stripSlashes_append_slash (s : String) :
    stripSlashes (s ++ "/") = stripSlashes s := by
  have h : (s ++ "/").data = s.data ++ ['/'] := rfl
  simp only [stripSlashes, h]
  rw [List.dropWhile_append]
  by_cases he : (s.data.dropWhile (fun c => c == '/')).isEmpty
  · rw [List.isEmpty_iff] at he
    simp [he, List.dropWhile_cons]
  · simp only [he, if_neg, Bool.false_eq_true, not_false_iff, ite_false]
    rw [List.reverse_append]
    simp [List.dropWhile_cons]

/-- C8 counterexample: an item directly under the library root has a
parent reference path ending in a colon, but the function returns the
item name, not the empty string the claim requires for every such
item. -/
theorem claim_C8_counterexample :
    get_server_relative_path ⟨"item1", "docs", some ⟨some "/drives/d1/root:"⟩⟩ = "docs" ∧
      ("docs" : String) ≠ "" := by
  exact ⟨rfl, by decide⟩

/-- C8 (amended): get server relative path is a pure function of the
item; when the parent reference path ends in a colon it returns the
item name stripped of slashes (which is the empty string exactly when
the name is empty, as for a reconstructed root item); when the parent
path contains the colon slash marker and does not end in a colon, it
returns the part after the first marker joined with a slash to the item
name, stripped of leading and trailing slashes. -/
theorem claim_C8 (item : DriveItem) :
    (∀ pp, parentPathOf item = some pp → pp ≠ "" → endsWithColon pp = true →
      get_server_relative_path item = stripSlashes item.name) ∧
    (∀ pp rest, parentPathOf item = some pp → pp ≠ "" → endsWithColon pp = false →
      afterColonSlash pp = some rest →
      get_server_relative_path item = stripSlashes (rest ++ "/" ++ item.name)) := by
  constructor
  · intro pp hpp hne hends
    simp [get_server_relative_path, hpp, hne, hends]
  · intro pp rest hpp hne hends hafter
    by_cases hrest : rest = ""
    · subst hrest
      have hgoal : ("" : String) ++ "/" ++ item.name = "/" ++ item.name := rfl
      simp [get_server_relative_path, hpp, hne, hends, hafter, hgoal,
        stripSlashes_slash_append]
    · by_cases hname : item.name = ""
      · have hgoal : rest ++ "/" ++ item.name = rest ++ "/" := by
          rw [hname, string_append_empty]
        rw [hgoal, stripSlashes_append_slash]
        simp [get_server_relative_path, hpp, hne, hends, hafter, hrest, hname]
      · simp [get_server_relative_path, hpp, hne, hends, hafter, hrest, hname]

/-- Witness for C8: an item whose parent path ends in a colon maps to
its own stripped name, and a nested item maps to the joined stripped
path. -/
theorem claim_C8_witness :
    get_server_relative_path ⟨"1", "root", some ⟨some "/drives/d/root:"⟩⟩ =
        stripSlashes "root" ∧
      get_server_relative_path ⟨"2", "c", some ⟨some "/drives/d/root:/a/b"⟩⟩ =
        stripSlashes ("a/b" ++ "/" ++ "c") := by
  constructor
  · exact (claim_C8 ⟨"1", "root", some ⟨some "/drives/d/root:"⟩⟩).1
      "/drives/d/root:" rfl (by decide) (by decide)
  · exact (claim_C8 ⟨"2", "c", some ⟨some "/drives/d/root:/a/b"⟩⟩).2
      "/drives/d/root:/a/b" "a/b" rfl (by decide) (by decide) (by decide)

/-! ## Client connection state

client.py lines 33 to 51: the fields token, site id and drive id start
as None in the constructor and ensure_connected fills each one, over the
network, only while it is still None.  The grep over the repository
shows these three fields are assigned nowhere else.  The values that the
three acquisition calls would produce are supplied by an environment;
the operations performed are recorded. -/

structure ClientState where
  token : Option String
  site_id : Option String
  drive_id : Option String
  deriving Repr, DecidableEq

structure ConnEnv where
  tokenVal : String
  siteVal : String
  driveVal : String
  deriving Repr, DecidableEq

/-- The remote calls the client makes, as recorded operations. -/
inductive NetOp where
  | acquireToken
  | getSiteId
  | getDriveId
  | putSmall (path : String)
  | postCreateSession (path : String)
  | putChunk (start : Nat) (stop : Nat) (total : Nat)
  deriving Repr, DecidableEq

/-- client.py lines 39 to 46: acquire the token, the site id and the
drive id, each only if the corresponding field is still None. -/
def ensure_connected (e : ConnEnv) (st : ClientState) : ClientState × List NetOp :=
  let tok : String × List NetOp :=
    match st.token with
    | some t => (t, [])
    | none => (e.tokenVal, [NetOp.acquireToken])
  let site : String × List NetOp :=
    match st.site_id with
    | some s => (s, [])
    | none => (e.siteVal, [NetOp.getSiteId])
  let drive : String × List NetOp :=
    match st.drive_id with
    | some d => (d, [])
    | none => (e.driveVal, [NetOp.getDriveId])
  (⟨some tok.1, some site.1, some drive.1⟩, tok.2 ++ site.2 ++ drive.2)

/-- C9: the cached credential and the resolved site and drive ids are
write once then read only: a field already set is never overwritten and
its acquisition call is not repeated, and after one ensure connected all
fields are set, so a second call performs no network operation and
leaves the state unchanged. -/
theorem claim_C9 (e : ConnEnv) (st : ClientState) :
    (∀ t, st.token = some t →
      (ensure_connected e st).1.token = some t ∧
        NetOp.acquireToken ∉ (ensure_connected e st).2) ∧
    (∀ s, st.site_id = some s →
      (ensure_connected e st).1.site_id = some s ∧
        NetOp.getSiteId ∉ (ensure_connected e st).2) ∧
    (∀ d, st.drive_id = some d →
      (ensure_connected e st).1.drive_id = some d ∧
        NetOp.getDriveId ∉ (ensure_connected e st).2) ∧
    ensure_connected e (ensure_connected e st).1 = ((ensure_connected e st).1, []) := by
  rcases st with ⟨tk, si, dr⟩
  cases tk <;> cases si <;> cases dr <;>
    simp [ensure_connected]

/-- Witness for C9: a client that already holds a token keeps it, does
not acquire again, and a second ensure connected is a no-op. -/
theorem claim_C9_witness :
    (ensure_connected ⟨"t", "s", "d"⟩ ⟨some "tok", none, none⟩).1.token = some "tok" ∧
      NetOp.acquireToken ∉ (ensure_connected ⟨"t", "s", "d"⟩ ⟨some "tok", none, none⟩).2 ∧
      ensure_connected ⟨"t", "s", "d"⟩
          (ensure_connected ⟨"t", "s", "d"⟩ ⟨some "tok", none, none⟩).1 =
        ((ensure_connected ⟨"t", "s", "d"⟩ ⟨some "tok", none, none⟩).1, []) := by
  obtain ⟨h1, _, _, h4⟩ := claim_C9 ⟨"t", "s", "d"⟩ ⟨some "tok", none, none⟩
  obtain ⟨ha, hb⟩ := h1 "tok" rfl
  exact ⟨ha, hb, h4⟩

/-! ## File transfer engine

client.py lines 101 to 150, the method upload_file.  The embedding keeps
the order of the source: ensure_connected runs first (line 115), the
destination path with the file name is computed (line 118), the dry run
check returns afterwards (lines 123 to 124), then the size decides
between the whole body PUT (lines 126 to 135) and upload session plus
chunked upload (lines 136 to 150).  The file name (Python basename), the
content type probe and the stat size are external inputs; size is the
stat result passed to the chunked upload as file_size, avail is the
number of bytes the file actually yields when read.  smallStatus and
sessionStatus are the final statuses (after transport retries) of the
whole body PUT and of the session creation POST; requests treats a
status below 400 as ok, and the code raises on not ok. -/

inductive UploadErr where
  | smallFailed (status : Nat)
  | sessionFailed (status : Nat)
  | chunkFailed (e : ChunkErr)
  deriving Repr, DecidableEq

structure UploadRun where
  state : ClientState
  ops : List NetOp
  result : Except UploadErr Unit

/-- client.py lines 101 to 150. -/
def upload_file (e : ConnEnv) (st : ClientState)
    (file_name dest_folder_path : String) (size avail : Nat)
    (small_upload_max chunk_size : Nat)
    (smallStatus sessionStatus : Nat) (putStatus : Nat → Nat)
    (dry_run : Bool) : UploadRun :=
  let conn := ensure_connected e st
  let dpwn := stripSlashes (stripSlashes dest_folder_path ++ "/" ++ file_name)
  if dry_run then ⟨conn.1, conn.2, Except.ok ()⟩
  else if size ≤ small_upload_max then
    ⟨conn.1, conn.2 ++ [NetOp.putSmall dpwn],
      if smallStatus < 400 then Except.ok ()
      else Except.error (UploadErr.smallFailed smallStatus)⟩
  else if sessionStatus < 400 then
    ⟨conn.1,
      conn.2 ++ NetOp.postCreateSession dpwn ::
        (chunked_upload putStatus avail size chunk_size).1.map
          (fun c => NetOp.putChunk c.start c.stop size),
      match (chunked_upload putStatus avail size chunk_size).2 with
      | none => Except.ok ()
      | some er => Except.error (UploadErr.chunkFailed er)⟩
  else
    ⟨conn.1, conn.2 ++ [NetOp.postCreateSession dpwn],
      Except.error (UploadErr.sessionFailed sessionStatus)⟩

theorem conn_ops_shape (e : ConnEnv) (st : ClientState) :
    ∀ op ∈ (ensure_connected e st).2,
      op = NetOp.acquireToken ∨ op = NetOp.getSiteId ∨ op = NetOp.getDriveId := by
  rcases st with ⟨tk, si, dr⟩
  cases tk <;> cases si <;> cases dr <;> intro op hop <;>
    simp [ensure_connected] at hop <;> tauto

theorem putSmall_not_conn (e : ConnEnv) (st : ClientState) (p : String) :
    NetOp.putSmall p ∉ (ensure_connected e st).2 := by
  intro h
  rcases conn_ops_shape e st _ h with h1 | h1 | h1 <;> simp at h1

theorem postCreateSession_not_conn (e : ConnEnv) (st : ClientState) (p : String) :
    NetOp.postCreateSession p ∉ (ensure_connected e st).2 := by
  intro h
  rcases conn_ops_shape e st _ h with h1 | h1 | h1 <;> simp at h1

/-- C4: with dry run off, upload_file takes the whole body PUT path
exactly when size is at most the small upload threshold: at or below the
threshold the trace is the connection calls followed by the single whole
body PUT and no upload session is created; strictly above it, an upload
session is created right after the connection calls (followed by the
chunk PUTs of the chunked path) and no whole body PUT happens. -/
theorem claim_C4 (e : ConnEnv) (st : ClientState)
    (fn dp : String) (size avail small_upload_max chunk_size : Nat)
    (smallStatus sessionStatus : Nat) (putStatus : Nat → Nat) :
    (size ≤ small_upload_max →
      (upload_file e st fn dp size avail small_upload_max chunk_size
          smallStatus sessionStatus putStatus false).ops =
        (ensure_connected e st).2 ++
          [NetOp.putSmall (stripSlashes (stripSlashes dp ++ "/" ++ fn))] ∧
      (∀ q, NetOp.postCreateSession q ∉
        (upload_file e st fn dp size avail small_upload_max chunk_size
          smallStatus sessionStatus putStatus false).ops)) ∧
    (small_upload_max < size →
      (∃ rest, (upload_file e st fn dp size avail small_upload_max chunk_size
          smallStatus sessionStatus putStatus false).ops =
        (ensure_connected e st).2 ++
          NetOp.postCreateSession (stripSlashes (stripSlashes dp ++ "/" ++ fn)) :: rest) ∧
      (∀ q, NetOp.putSmall q ∉
        (upload_file e st fn dp size avail small_upload_max chunk_size
          smallStatus sessionStatus putStatus false).ops)) := by
  constructor
  · intro hle
    have hops : (upload_file e st fn dp size avail small_upload_max chunk_size
        smallStatus sessionStatus putStatus false).ops =
        (ensure_connected e st).2 ++
          [NetOp.putSmall (stripSlashes (stripSlashes dp ++ "/" ++ fn))] := by
      simp [upload_file, hle]
    refine ⟨hops, ?_⟩
    intro q hq
    rw [hops] at hq
    rcases List.mem_append.mp hq with h | h
    · exact postCreateSession_not_conn e st q h
    · simp at h
  · intro hgt
    have hnle : ¬ size ≤ small_upload_max := by omega
    by_cases hss : sessionStatus < 400
    · have hops : (upload_file e st fn dp size avail small_upload_max chunk_size
          smallStatus sessionStatus putStatus false).ops =
          (ensure_connected e st).2 ++
            NetOp.postCreateSession (stripSlashes (stripSlashes dp ++ "/" ++ fn)) ::
              (chunked_upload putStatus avail size chunk_size).1.map
                (fun c => NetOp.putChunk c.start c.stop size) := by
        simp [upload_file, hnle, hss]
      refine ⟨⟨_, hops⟩, ?_⟩
      intro q hq
      rw [hops] at hq
      rcases List.mem_append.mp hq with h | h
      · exact putSmall_not_conn e st q h
      · rcases List.mem_cons.mp h with h' | h'
        · simp at h'
        · rcases List.mem_map.mp h' with ⟨c, _, hc⟩
          simp at hc
    · have hops : (upload_file e st fn dp size avail small_upload_max chunk_size
          smallStatus sessionStatus putStatus false).ops =
          (ensure_connected e st).2 ++
            [NetOp.postCreateSession (stripSlashes (stripSlashes dp ++ "/" ++ fn))] := by
        simp [upload_file, hnle, hss]
      refine ⟨⟨[], by simpa using hops⟩, ?_⟩
      intro q hq
      rw [hops] at hq
      rcases List.mem_append.mp hq with h | h
      · exact putSmall_not_conn e st q h
      · simp at h

/-- Witness for C4: a 4 byte file at threshold 4 takes the whole body
PUT path; a 5 byte file takes the session plus chunked path. -/
theorem claim_C4_witness :
    (upload_file ⟨"t", "s", "d"⟩ ⟨none, none, none⟩ "a.bin" "docs" 4 4 4 2 200 200
        (fun _ => 200) false).ops =
      (ensure_connected ⟨"t", "s", "d"⟩ ⟨none, none, none⟩).2 ++
        [NetOp.putSmall (stripSlashes (stripSlashes "docs" ++ "/" ++ "a.bin"))] ∧
    (∃ rest, (upload_file ⟨"t", "s", "d"⟩ ⟨none, none, none⟩ "a.bin" "docs" 5 5 4 2 200 200
        (fun _ => 200) false).ops =
      (ensure_connected ⟨"t", "s", "d"⟩ ⟨none, none, none⟩).2 ++
        NetOp.postCreateSession (stripSlashes (stripSlashes "docs" ++ "/" ++ "a.bin")) :: rest) :=
  ⟨((claim_C4 ⟨"t", "s", "d"⟩ ⟨none, none, none⟩ "a.bin" "docs" 4 4 4 2 200 200
      (fun _ => 200)).1 (by decide)).1,
    ((claim_C4 ⟨"t", "s", "d"⟩ ⟨none, none, none⟩ "a.bin" "docs" 5 5 4 2 200 200
      (fun _ => 200)).2 (by decide)).1⟩

/-! ## Upload command

cli.py lines 104 to 171, the upload command.  The walk argument is the
sorted directory walk of the local folder, one entry per directory with
its directory path already made relative to the local root (the Python
code turns the dot of the root into the empty string) and its file
names.  target_folder is the raw target option passed to the target
ensure_folder_path call on line 130; target_path is the server relative
path of the resolved target item (line 131).  The model records each
ensure_folder_path call and each upload_file call; the directory
existence check, echoes and the progress bar are local I/O.  Note the
order of the source: the target folder is resolved on line 130 before
count_files runs on line 137, in every run. -/

inductive CmdOp where
  | resolveFolder (path : String)
  | uploadCall (file : String) (dry : Bool)
  deriving Repr, DecidableEq

inductive CmdOutcome where
  | nothingToUpload
  | done
  deriving Repr, DecidableEq

/-- client.py lines 353 to 357: total number of files under the root. -/
def count_files (walk : List (String × List String)) : Nat :=
  (walk.map (fun d => d.2.length)).sum

/-- cli.py lines 104 to 171. -/
def upload_cmd (target_folder target_path : String)
    (walk : List (String × List String)) (dry_run : Bool) :
    CmdOutcome × List CmdOp :=
  if count_files walk = 0 then
    (CmdOutcome.nothingToUpload, [CmdOp.resolveFolder target_folder])
  else
    (CmdOutcome.done,
      CmdOp.resolveFolder target_folder ::
        (walk.map (fun d =>
          CmdOp.resolveFolder
              (if d.1 = "" then target_path
               else stripSlashes (target_path ++ "/" ++ d.1)) ::
            d.2.map (fun f => CmdOp.uploadCall f dry_run))).flatten)

/-- Number of ensure_folder_path calls recorded in a command trace. -/
def resolveCalls (ops : List CmdOp) : Nat :=
  (ops.filter (fun op =>
    match op with
    | CmdOp.resolveFolder _ => true
    | _ => false)).length

/-- Number of upload_file calls recorded in a command trace. -/
def engineCalls (ops : List CmdOp) : Nat :=
  (ops.filter (fun op =>
    match op with
    | CmdOp.uploadCall _ _ => true
    | _ => false)).length

/-- C2: evaluation of the dry run path at a failing input.  A fresh
client asked for a dry run upload still performs the three connection
network calls (token, site id, drive id) before the dry run return,
and a dry run of the upload command over a one file tree still records
two ensure_folder_path calls (the target folder and the root
directory), so the dry run does not short circuit before every remote
call as the claim requires. -/
theorem claim_C2 :
    (upload_file ⟨"t", "s", "d"⟩ ⟨none, none, none⟩ "a.txt" "docs" 10 10 4 2 200 200
        (fun _ => 200) true).ops =
      [NetOp.acquireToken, NetOp.getSiteId, NetOp.getDriveId] ∧
    (upload_file ⟨"t", "s", "d"⟩ ⟨none, none, none⟩ "a.txt" "docs" 10 10 4 2 200 200
        (fun _ => 200) true).ops.length = 3 ∧
    resolveCalls (upload_cmd "docs" "docs" [("", ["a.txt"])] true).2 = 2 ∧
    engineCalls (upload_cmd "docs" "docs" [("", ["a.txt"])] true).2 = 1 ∧
    (3 : Nat) ≠ 0 := by
  refine ⟨rfl, rfl, rfl, rfl, by decide⟩

/-- C6 counterexample: on an empty local root the command still makes
one Resolver call, the target folder resolution of line 130, before the
empty check of line 138; the claim requires zero Resolver calls. -/
theorem claim_C6_counterexample :
    upload_cmd "docs" "docs" [("", [])] false =
        (CmdOutcome.nothingToUpload, [CmdOp.resolveFolder "docs"]) ∧
      resolveCalls [CmdOp.resolveFolder "docs"] = 1 ∧ (1 : Nat) ≠ 0 :=
  ⟨rfl, rfl, by decide⟩

/-- C6 (amended): a run over a local root with zero files reports the
nothing to upload outcome and stops successfully, with zero Transfer
Engine calls and zero per directory Resolver calls; exactly one
Resolver call happens, the resolution of the target folder, which the
code performs before the emptiness check. -/
theorem claim_C6 (target_folder target_path : String)
    (walk : List (String × List String)) (dry_run : Bool)
    (h : count_files walk = 0) :
    upload_cmd target_folder target_path walk dry_run =
      (CmdOutcome.nothingToUpload, [CmdOp.resolveFolder target_folder]) ∧
    engineCalls (upload_cmd target_folder target_path walk dry_run).2 = 0 ∧
    resolveCalls (upload_cmd target_folder target_path walk dry_run).2 = 1 := by
  have h1 : upload_cmd target_folder target_path walk dry_run =
      (CmdOutcome.nothingToUpload, [CmdOp.resolveFolder target_folder]) := by
    simp [upload_cmd, h]
  refine ⟨h1, ?_, ?_⟩ <;> rw [h1] <;> rfl

/-- Witness for C6 on a concrete empty tree (a root directory and one
empty subdirectory, no files). -/
theorem claim_C6_witness :
    upload_cmd "docs" "docs" [("", []), ("sub", [])] true =
        (CmdOutcome.nothingToUpload, [CmdOp.resolveFolder "docs"]) ∧
      engineCalls (upload_cmd "docs" "docs" [("", []), ("sub", [])] true).2 = 0 ∧
      resolveCalls (upload_cmd "docs" "docs" [("", []), ("sub", [])] true).2 = 1 :=
  claim_C6 "docs" "docs" [("", []), ("sub", [])] true rfl

/-! ## Remote tree resolver

client.py lines 53 to 80 (ensure_folder_path), lines 219 to 231 (the
item lookup by path) and lines 233 to 244 (folder creation).  The remote
drive is an oracle world: lookup gives the final response (status and
body item) of the metadata GET for a given already stripped path, and
create gives the final response of the children POST for a given parent
item id, folder name and conflict behavior.  requests treats a status
below 400 as ok; the lookup turns a 404 into None, raises when the
status is not ok, and returns the body otherwise; the create raises
when the status is not ok.  The embedding records every lookup and
every create in order.  The ensure_connected call at the top of
ensure_folder_path touches only the cached connection state modelled in
the client connection section. -/

structure LookupResp where
  status : Nat
  item : DriveItem
  deriving Repr, DecidableEq

structure RemoteWorld where
  lookup : String → LookupResp
  create : String → String → String → LookupResp

/-- client.py lines 219 to 231: strip the path, GET the item, turn 404
into none, raise on any other not ok status, return the item body
otherwise. -/
def get_item_by_path (w : RemoteWorld) (p : String) : Except Nat (Option DriveItem) :=
  if (w.lookup (stripSlashes p)).status = 404 then Except.ok none
  else if (w.lookup (stripSlashes p)).status < 400 then
    Except.ok (some (w.lookup (stripSlashes p)).item)
  else Except.error (w.lookup (stripSlashes p)).status

/-- client.py lines 69 to 73: the lookup path for the next segment is
the reconstructed path of the current item joined with the segment when
the current item has a truthy parent reference, else the bare
segment. -/
def candidatePath (current : DriveItem) (part : String) : String :=
  match current.parentReference with
  | some _ => get_server_relative_path current ++ "/" ++ part
  | none => part

/-- The remote operations the resolver performs, in order. -/
inductive ResolverOp where
  | lookupOp (path : String)
  | createOp (parentId : String) (name : String) (conflict : String)
  deriving Repr, DecidableEq

/-- The RuntimeErrors ensure_folder_path can raise. -/
inductive EnsureErr where
  | rootNotFound
  | lookupFailed (path : String) (status : Nat)
  | createFailed (name : String) (status : Nat)
  deriving Repr, DecidableEq

/-- The for loop of client.py lines 68 to 79, with the recorded
operation trace accumulated in acc. -/
def ensureLoop (w : RemoteWorld) (conflict : String) :
    DriveItem → List String → List ResolverOp →
      List ResolverOp × Except EnsureErr DriveItem
  | current, [], acc => (acc, Except.ok current)
  | current, part :: rest, acc =>
    match get_item_by_path w (candidatePath current part) with
    | Except.error s =>
      (acc ++ [ResolverOp.lookupOp (candidatePath current part)],
        Except.error (EnsureErr.lookupFailed (candidatePath current part) s))
    | Except.ok (some existing) =>
      ensureLoop w conflict existing rest
        (acc ++ [ResolverOp.lookupOp (candidatePath current part)])
    | Except.ok none =>
      if (w.create current.id part conflict).status < 400 then
        ensureLoop w conflict (w.create current.id part conflict).item rest
          (acc ++ [ResolverOp.lookupOp (candidatePath current part),
            ResolverOp.createOp current.id part conflict])
      else
        (acc ++ [ResolverOp.lookupOp (candidatePath current part),
          ResolverOp.createOp current.id part conflict],
          Except.error (EnsureErr.createFailed part
            (w.create current.id part conflict).status))

/-- client.py lines 53 to 80: strip the folder path, fetch the drive
root, raise when it is missing, return it for the empty path, else walk
the slash separated segments. -/
def ensure_folder_path (w : RemoteWorld) (folder_path conflict : String) :
    List ResolverOp × Except EnsureErr DriveItem :=
  match get_item_by_path w "" with
  | Except.error s =>
    ([ResolverOp.lookupOp ""], Except.error (EnsureErr.lookupFailed "" s))
  | Except.ok none => ([ResolverOp.lookupOp ""], Except.error EnsureErr.rootNotFound)
  | Except.ok (some root) =>
    if stripSlashes folder_path = "" then ([ResolverOp.lookupOp ""], Except.ok root)
    else
      ensureLoop w conflict root (splitSlashes (stripSlashes folder_path))
        [ResolverOp.lookupOp ""]

/-- Specification of a run over a fresh remote tree: per segment, one
lookup of the segment path followed by one create under the id of the
current item with the configured conflict behavior, descending into the
created item; the second component is the deepest item. -/
def freshTreeOps (w : RemoteWorld) (conflict : String) :
    DriveItem → List String → List ResolverOp × DriveItem
  | cur, [] => ([], cur)
  | cur, part :: rest =>
    (ResolverOp.lookupOp part :: ResolverOp.createOp cur.id part conflict ::
        (freshTreeOps w conflict ((w.create cur.id part conflict).item) rest).1,
      (freshTreeOps w conflict ((w.create cur.id part conflict).item) rest).2)

theorem stripSlashes_empty : stripSlashes "" = "" := rfl

theorem get_item_root (w : RemoteWorld) (hs : (w.lookup "").status = 200) :
    get_item_by_path w "" = Except.ok (some (w.lookup "").item) := by
  simp [get_item_by_path, stripSlashes_empty, hs]

theorem ensureLoop_allFound (w : RemoteWorld) (conflict : String)
    (hw : ∀ p, (w.lookup p).status = 200) :
    ∀ (parts : List String) (cur : DriveItem) (acc : List ResolverOp),
      ∃ item lops, ensureLoop w conflict cur parts acc = (acc ++ lops, Except.ok item) ∧
        ∀ op ∈ lops, ∃ q, op = ResolverOp.lookupOp q := by
  intro parts
  induction parts with
  | nil =>
    intro cur acc
    exact ⟨cur, [], by simp [ensureLoop], by simp⟩
  | cons part rest ih =>
    intro cur acc
    have hgip : get_item_by_path w (candidatePath cur part) =
        Except.ok (some (w.lookup (stripSlashes (candidatePath cur part))).item) := by
      simp [get_item_by_path, hw]
    obtain ⟨item, lops, heq, hsh⟩ :=
      ih ((w.lookup (stripSlashes (candidatePath cur part))).item)
        (acc ++ [ResolverOp.lookupOp (candidatePath cur part)])
    refine ⟨item, ResolverOp.lookupOp (candidatePath cur part) :: lops, ?_, ?_⟩
    · simp only [ensureLoop, hgip, heq]
      simp
    · intro op hop
      rcases List.mem_cons.mp hop with h | h
      · exact ⟨_, h⟩
      · exact hsh op h

theorem ensureLoop_freshTree (w : RemoteWorld) (conflict : String)
    (h404 : ∀ p, p ≠ "" → (w.lookup p).status = 404)
    (hcr : ∀ pid nm, (w.create pid nm conflict).status = 201 ∧
      (w.create pid nm conflict).item.parentReference = none) :
    ∀ (parts : List String), (∀ part ∈ parts, part ≠ "" ∧ stripSlashes part = part) →
      ∀ (cur : DriveItem), cur.parentReference = none →
        ∀ (acc : List ResolverOp),
          ensureLoop w conflict cur parts acc =
            (acc ++ (freshTreeOps w conflict cur parts).1,
              Except.ok (freshTreeOps w conflict cur parts).2) := by
  intro parts
  induction parts with
  | nil =>
    intro _ cur _ acc
    simp [ensureLoop, freshTreeOps]
  | cons part rest ih =>
    intro hparts cur hcur acc
    obtain ⟨hp1, hp2⟩ := hparts part (List.mem_cons_self part rest)
    have hcand : candidatePath cur part = part := by
      simp [candidatePath, hcur]
    have hgip : get_item_by_path w (candidatePath cur part) = Except.ok none := by
      rw [hcand]
      simp [get_item_by_path, hp2, h404 part hp1]
    have hcs := hcr cur.id part
    have hrec := ih (fun q hq => hparts q (List.mem_cons_of_mem part hq))
      ((w.create cur.id part conflict).item) hcs.2
      (acc ++ [ResolverOp.lookupOp (candidatePath cur part),
        ResolverOp.createOp cur.id part conflict])
    simp only [ensureLoop, hgip, hcs.1]
    rw [if_pos (by omega)]
    rw [hrec, hcand]
    simp [freshTreeOps]

/-- C5 counterexample: the claim says any non 2xx lookup response other
than 404 raises, but requests treats every status below 400 as ok, so a
300 lookup response is treated as a found item and the resolver
descends into it and succeeds instead of raising. -/
theorem claim_C5_counterexample :
    ((⟨fun p => if p = "" then ⟨200, ⟨"root", "root", none⟩⟩
        else ⟨300, ⟨"i300", "a", none⟩⟩,
      fun _ nm _ => ⟨201, ⟨"cid", nm, none⟩⟩⟩ : RemoteWorld).lookup "a").status = 300 ∧
    ensure_folder_path
        ⟨fun p => if p = "" then ⟨200, ⟨"root", "root", none⟩⟩
            else ⟨300, ⟨"i300", "a", none⟩⟩,
          fun _ nm _ => ⟨201, ⟨"cid", nm, none⟩⟩⟩ "a" "replace" =
      ([ResolverOp.lookupOp "", ResolverOp.lookupOp "a"],
        Except.ok ⟨"i300", "a", none⟩) ∧
    (299 : Nat) < 300 := by
  refine ⟨rfl, rfl, by decide⟩

/-- C5 (amended): ensure_folder_path processes the slash separated
segments left to right starting from the drive root.  Empty path: the
drive root item is returned after the single root lookup.  When every
lookup succeeds (status 200) the walk performs only lookups, never a
create, and returns the deepest item found.  When every non root lookup
is a 404, the 404 is not an error: each segment is created under the id
of the current item with the configured conflict behavior and the walk
descends into the created item, returning the deepest one.  A lookup
response with status at least 400 other than 404 raises, as does a
create response with status at least 400 (the amendment: the code
treats any status below 400 as success, not only 2xx). -/
theorem claim_C5 :
    (∀ (w : RemoteWorld) (conflict path : String),
      stripSlashes path = "" → (w.lookup "").status = 200 →
      ensure_folder_path w path conflict =
        ([ResolverOp.lookupOp ""], Except.ok (w.lookup "").item)) ∧
    (∀ (w : RemoteWorld) (conflict path : String),
      (∀ p, (w.lookup p).status = 200) →
      ∃ item, (ensure_folder_path w path conflict).2 = Except.ok item ∧
        ∀ op ∈ (ensure_folder_path w path conflict).1, ∃ q, op = ResolverOp.lookupOp q) ∧
    (∀ (w : RemoteWorld) (conflict path : String),
      (w.lookup "").status = 200 → (w.lookup "").item.parentReference = none →
      (∀ p, p ≠ "" → (w.lookup p).status = 404) →
      (∀ pid nm, (w.create pid nm conflict).status = 201 ∧
        (w.create pid nm conflict).item.parentReference = none) →
      stripSlashes path ≠ "" →
      (∀ part ∈ splitSlashes (stripSlashes path), part ≠ "" ∧ stripSlashes part = part) →
      ensure_folder_path w path conflict =
        (ResolverOp.lookupOp "" ::
            (freshTreeOps w conflict (w.lookup "").item
              (splitSlashes (stripSlashes path))).1,
          Except.ok (freshTreeOps w conflict (w.lookup "").item
            (splitSlashes (stripSlashes path))).2)) ∧
    (∀ (w : RemoteWorld) (conflict path p1 : String) (rest : List String) (s : Nat),
      (w.lookup "").status = 200 → stripSlashes path ≠ "" →
      splitSlashes (stripSlashes path) = p1 :: rest →
      (w.lookup (stripSlashes (candidatePath (w.lookup "").item p1))).status = s →
      400 ≤ s → s ≠ 404 →
      (ensure_folder_path w path conflict).2 =
        Except.error (EnsureErr.lookupFailed (candidatePath (w.lookup "").item p1) s)) ∧
    (∀ (w : RemoteWorld) (conflict path p1 : String) (rest : List String) (s : Nat),
      (w.lookup "").status = 200 → stripSlashes path ≠ "" →
      splitSlashes (stripSlashes path) = p1 :: rest →
      (w.lookup (stripSlashes (candidatePath (w.lookup "").item p1))).status = 404 →
      (w.create (w.lookup "").item.id p1 conflict).status = s → 400 ≤ s →
      (ensure_folder_path w path conflict).2 =
        Except.error (EnsureErr.createFailed p1 s)) := by
  refine ⟨?_, ?_, ?_, ?_, ?_⟩
  · intro w conflict path hfp h200
    simp [ensure_folder_path, get_item_root w h200, hfp]
  · intro w conflict path hw
    rcases heq : get_item_by_path w "" with s | item0
    · rw [get_item_root w (hw "")] at heq
      cases heq
    · rw [get_item_root w (hw "")] at heq
      by_cases hfp : stripSlashes path = ""
      · refine ⟨(w.lookup "").item, ?_, ?_⟩ <;>
          simp [ensure_folder_path, get_item_root w (hw ""), hfp]
      · obtain ⟨item, lops, hloop, hsh⟩ :=
          ensureLoop_allFound w conflict hw (splitSlashes (stripSlashes path))
            ((w.lookup "").item) [ResolverOp.lookupOp ""]
        refine ⟨item, ?_, ?_⟩
        · simp [ensure_folder_path, get_item_root w (hw ""), hfp, hloop]
        · intro op hop
          simp [ensure_folder_path, get_item_root w (hw ""), hfp, hloop] at hop
          rcases hop with h | h
          · exact ⟨"", by rw [h]⟩
          · exact hsh op h
  · intro w conflict path h200 hrootpr h404 hcr hfp hparts
    have hloop := ensureLoop_freshTree w conflict h404 hcr
      (splitSlashes (stripSlashes path)) hparts ((w.lookup "").item) hrootpr
      [ResolverOp.lookupOp ""]
    simp [ensure_folder_path, get_item_root w h200, hfp, hloop]
  · intro w conflict path p1 rest s h200 hfp hsplit hlk hs400 hs404
    have hgip : get_item_by_path w (candidatePath (w.lookup "").item p1) =
        Except.error s := by
      simp only [get_item_by_path, hlk]
      rw [if_neg hs404, if_neg (by omega)]
    simp [ensure_folder_path, get_item_root w h200, hfp, hsplit, ensureLoop, hgip]
  · intro w conflict path p1 rest s h200 hfp hsplit hlk hcs hs400
    have hgip : get_item_by_path w (candidatePath (w.lookup "").item p1) =
        Except.ok none := by
      simp [get_item_by_path, hlk]
    simp [ensure_folder_path, get_item_root w h200, hfp, hsplit, ensureLoop, hgip,
      hcs, if_neg (show ¬ s < 400 by omega)]

/-- A world where every lookup finds an item. -/
def w5a : RemoteWorld :=
  ⟨fun _ => ⟨200, ⟨"root", "root", none⟩⟩,
    fun pid nm _ => ⟨201, ⟨pid ++ "/" ++ nm, nm, none⟩⟩⟩

/-- A fresh tree world: only the root exists, every create succeeds. -/
def w5b : RemoteWorld :=
  ⟨fun p => if p = "" then ⟨200, ⟨"root", "root", none⟩⟩ else ⟨404, ⟨"x", "x", none⟩⟩,
    fun pid nm _ => ⟨201, ⟨pid ++ "/" ++ nm, nm, none⟩⟩⟩

/-- A world where every non root lookup fails with a 500. -/
def w5c : RemoteWorld :=
  ⟨fun p => if p = "" then ⟨200, ⟨"root", "root", none⟩⟩ else ⟨500, ⟨"x", "x", none⟩⟩,
    fun _ nm _ => ⟨201, ⟨"cid", nm, none⟩⟩⟩

/-- A fresh tree world where every create fails with a 403. -/
def w5d : RemoteWorld :=
  ⟨fun p => if p = "" then ⟨200, ⟨"root", "root", none⟩⟩ else ⟨404, ⟨"x", "x", none⟩⟩,
    fun _ nm _ => ⟨403, ⟨"cid", nm, none⟩⟩⟩

/-- Witness for C5: each clause of the amended claim instantiated at a
small concrete world. -/
theorem claim_C5_witness :
    ensure_folder_path w5a "/" "replace" =
        ([ResolverOp.lookupOp ""], Except.ok (w5a.lookup "").item) ∧
      (∃ item, (ensure_folder_path w5a "a/b" "replace").2 = Except.ok item ∧
        ∀ op ∈ (ensure_folder_path w5a "a/b" "replace").1,
          ∃ q, op = ResolverOp.lookupOp q) ∧
      ensure_folder_path w5b "a/b" "replace" =
        (ResolverOp.lookupOp "" ::
            (freshTreeOps w5b "replace" (w5b.lookup "").item
              (splitSlashes (stripSlashes "a/b"))).1,
          Except.ok (freshTreeOps w5b "replace" (w5b.lookup "").item
            (splitSlashes (stripSlashes "a/b"))).2) ∧
      (ensure_folder_path w5c "a" "replace").2 =
        Except.error (EnsureErr.lookupFailed
          (candidatePath (w5c.lookup "").item "a") 500) ∧
      (ensure_folder_path w5d "a" "replace").2 =
        Except.error (EnsureErr.createFailed "a" 403) := by
  refine ⟨?_, ?_, ?_, ?_, ?_⟩
  · exact claim_C5.1 w5a "replace" "/" rfl rfl
  · exact claim_C5.2.1 w5a "replace" "a/b" (fun p => rfl)
  · exact claim_C5.2.2.1 w5b "replace" "a/b" (by decide) (by decide)
      (fun p hp => by simp [w5b, hp]) (fun pid nm => ⟨rfl, rfl⟩)
      (by decide) (by decide)
  · exact claim_C5.2.2.2.1 w5c "replace" "a" "a" [] 500 (by decide) (by decide)
      (by decide) (by decide) (by decide) (by decide)
  · exact claim_C5.2.2.2.2 w5d "replace" "a" "a" [] 403 (by decide) (by decide)
      (by decide) (by decide) (by decide) (by decide)

end OpsKit
